import Mathlib

/-!
Shallow embedding of the package-indexing core of the PyPI-clone repository
(`src/package_manager.py`, class `PackageManager`) together with models of the
pieces of the third-party `packaging` library that the source calls
(`packaging.version.parse`, `packaging.utils.parse_sdist_filename`,
`packaging.utils.canonicalize_name`).  Machine integers do not occur; file
contents are lists of byte values; the file system and the metadata cache are
explicit association lists threaded through the operations.

Conventions:
* Python dictionaries are modelled as association lists with
  overwrite-on-insert; only lookup behaviour matters to the properties below,
  so insertion order of the association list is a modelling artefact.
* Python `str` is modelled by `String`, `bytes` by `List Nat`.  The Python
  string primitives the source uses (`split`, `strip`, `rstrip`, `lower`,
  `replace`, `startswith`, `endswith`, `in`, `join`) are given executable
  character-list models below rather than mapped to the Lean runtime
  primitives, so that every definition evaluates inside the kernel; the
  `lower` model covers the ASCII range, which is the case analysed here.
* Exceptions that the source catches locally are modelled by `Option` results
  or by the degraded value the handler produces.
-/

/-! ## Python string primitives -/

def pyCharLower (c : Char) : Char :=
  if 65 ≤ c.toNat ∧ c.toNat ≤ 90 then Char.ofNat (c.toNat + 32) else c

/-- Model of `str.lower` (ASCII range). -/
def pyLower (s : String) : String := String.mk (s.data.map pyCharLower)

def pyIsSpaceChar (c : Char) : Bool :=
  c == ' ' || c == '\t' || c == '\n' || c == '\r' || c == '\x0b' || c == '\x0c'

/-- Model of `str.strip()`. -/
def pyStrip (s : String) : String :=
  String.mk (((s.data.dropWhile pyIsSpaceChar).reverse.dropWhile pyIsSpaceChar).reverse)

/-- Model of `str.rstrip()`. -/
def pyRStrip (s : String) : String :=
  String.mk ((s.data.reverse.dropWhile pyIsSpaceChar).reverse)

/-- Model of `str.startswith`. -/
def pyStartsWith (s pre : String) : Bool := decide (pre.data <+: s.data)

/-- Model of `str.endswith`. -/
def pyEndsWith (s post : String) : Bool := decide (post.data <:+ s.data)

/-- Model of the Python substring test `needle in hay`. -/
def strContains (needle hay : String) : Bool := decide (needle.data <:+: hay.data)

def splitCharAux (sep : Char) : List Char → List (List Char)
  | [] => [[]]
  | c :: cs =>
    match splitCharAux sep cs with
    | [] => [[c]]
    | h :: t => if c == sep then [] :: h :: t else (c :: h) :: t

/-- Model of `str.split(sep)` for a one-character separator (the only form
the source uses): `""` yields `[""]`, adjacent separators yield empty
fields. -/
def pySplitChar (sep : Char) (s : String) : List String :=
  (splitCharAux sep s.data).map String.mk

def charJoin (sep : Char) : List (List Char) → List Char
  | [] => []
  | [l] => l
  | l :: l2 :: rest => l ++ sep :: charJoin sep (l2 :: rest)

/-- Model of `sep.join(parts)` for a one-character separator. -/
def pyJoin (sep : Char) (parts : List String) : String :=
  String.mk (charJoin sep (parts.map String.data))

/-- Model of `str.replace(old, new)` for a single-character `old`
(used for `key.replace("-", "_")`). -/
def pyReplaceChar (a b : Char) (s : String) : String :=
  String.mk (s.data.map (fun c => if c == a then b else c))

def replaceAllAux (pat repl : List Char) : Nat → List Char → List Char
  | _, [] => []
  | 0, l => l
  | fuel + 1, c :: cs =>
    if pat <+: (c :: cs) then repl ++ replaceAllAux pat repl fuel ((c :: cs).drop pat.length)
    else c :: replaceAllAux pat repl fuel cs

/-- Model of `str.replace(old, new)` for a nonempty multi-character `old`
(used for `filename.replace(".tar.gz", "")`): replace every non-overlapping
occurrence left to right.  The fuel argument (the string length) only makes
the recursion structural; each step consumes at least one character. -/
def pyReplace (s pat repl : String) : String :=
  String.mk (replaceAllAux pat.data repl.data s.data.length s.data)

def pyContainsChar (s : String) (c : Char) : Bool := s.data.contains c

def pyDrop (s : String) (n : Nat) : String := String.mk (s.data.drop n)

def pyDropRight (s : String) (n : Nat) : String :=
  String.mk (s.data.take (s.data.length - n))

/-! ## Model of `packaging.version` (PEP 440), the fragment the source exercises

Modelled from the third-party `packaging` library (not part of this
repository): `Version` accepts `[N!]N(.N)*[{a|b|rc}N][.postN][.devN]` and
orders versions by the key (epoch, release with trailing zeros dropped,
pre-key, post-key, dev-key) where a missing pre-release counts as plus
infinity (minus infinity when only a dev segment is present), a missing post
segment as minus infinity, and a missing dev segment as plus infinity.
Alternate PEP 440 spellings (separator variants, `alpha`/`beta` words, local
version segments, leading `v`) are outside the modelled fragment. -/

def isDigitsStr (s : String) : Bool := !s.data.isEmpty && s.data.all Char.isDigit

def natOfStr (s : String) : Nat :=
  s.data.foldl (fun a c => 10 * a + (c.toNat - 48)) 0

structure PyVersion where
  epoch : Nat
  release : List Nat
  pre : Option (Nat × Nat)
  post : Option Nat
  dev : Option Nat
deriving Repr, DecidableEq

/-- Parse the final release segment together with an optionally attached
pre-release tag, e.g. `"0"` or `"0rc1"`. -/
def parseRelSeg (s : String) : Option (Nat × Option (Nat × Nat)) :=
  let ds := s.data.takeWhile Char.isDigit
  let rest : String := String.mk (s.data.drop ds.length)
  if ds.isEmpty then none
  else
    let n := natOfStr (String.mk ds)
    if rest.data.isEmpty then some (n, none)
    else
      let tagged : Option (Nat × String) :=
        if pyStartsWith rest "rc" then some (2, pyDrop rest 2)
        else if pyStartsWith rest "a" then some (0, pyDrop rest 1)
        else if pyStartsWith rest "b" then some (1, pyDrop rest 1)
        else none
      match tagged with
      | some (t, num) => if isDigitsStr num then some (n, some (t, natOfStr num)) else none
      | none => none

def segDev (s : String) : Option Nat :=
  if pyStartsWith s "dev" && isDigitsStr (pyDrop s 3) then some (natOfStr (pyDrop s 3))
  else none

def segPost (s : String) : Option Nat :=
  if pyStartsWith s "post" && isDigitsStr (pyDrop s 4) then some (natOfStr (pyDrop s 4))
  else none

def parseVerBody (epoch : Nat) (r : String) : Option PyVersion :=
  let segs := pySplitChar '.' r
  let devSegs : Option Nat × List String :=
    match segs.getLast? with
    | some l =>
      match segDev l with
      | some n => (some n, segs.dropLast)
      | none => (none, segs)
    | none => (none, segs)
  let postSegs : Option Nat × List String :=
    match devSegs.2.getLast? with
    | some l =>
      match segPost l with
      | some n => (some n, devSegs.2.dropLast)
      | none => (none, devSegs.2)
    | none => (none, devSegs.2)
  match postSegs.2.getLast? with
  | none => none
  | some lastSeg =>
    let initSegs := postSegs.2.dropLast
    if initSegs.all isDigitsStr then
      match parseRelSeg lastSeg with
      | none => none
      | some (n, pre) =>
        some ⟨epoch, initSegs.map natOfStr ++ [n], pre, postSegs.1, devSegs.1⟩
    else none

/-- Model of `packaging.version.parse` on the canonical fragment: `none`
models the `InvalidVersion` exception. -/
def parseVersion (s : String) : Option PyVersion :=
  match pySplitChar '!' s with
  | [r] => parseVerBody 0 r
  | [e, r] => if isDigitsStr e then parseVerBody (natOfStr e) r else none
  | _ => none

def tagStr : Nat → String
  | 0 => "a"
  | 1 => "b"
  | _ => "rc"

/-- Model of `str(Version)`: the canonical spelling of a parsed version. -/
def pyVersionStr (v : PyVersion) : String :=
  (if v.epoch ≠ 0 then toString v.epoch ++ "!" else "")
  ++ pyJoin '.' (v.release.map toString)
  ++ (match v.pre with
      | some (t, n) => tagStr t ++ toString n
      | none => "")
  ++ (match v.post with
      | some n => ".post" ++ toString n
      | none => "")
  ++ (match v.dev with
      | some n => ".dev" ++ toString n
      | none => "")

/-- Comparison key type mirroring the tuple `packaging` compares:
epoch, release, pre, post, dev — lexicographically, with explicit
bottom/top elements for the infinities. -/
abbrev VerKeyT :=
  Lex (Nat × Lex ((List Nat) ×
    Lex ((WithBot (WithTop (Lex (Nat × Nat)))) × Lex ((WithBot Nat) × (WithTop Nat)))))

def dropTrailingZeros (l : List Nat) : List Nat :=
  (l.reverse.dropWhile (· == 0)).reverse

/-- Model of the ordering key `packaging` computes for a parsed version. -/
def cmpKey (v : PyVersion) : VerKeyT :=
  let rel := dropTrailingZeros v.release
  let preK : WithBot (WithTop (Lex (Nat × Nat))) :=
    match v.pre, v.post, v.dev with
    | none, none, some _ => ⊥
    | none, none, none => ⊤
    | none, some _, _ => ⊤
    | some p, _, _ => ((toLex p : Lex (Nat × Nat)) : WithBot (WithTop (Lex (Nat × Nat))))
  let postK : WithBot Nat :=
    match v.post with
    | none => ⊥
    | some n => (n : WithBot Nat)
  let devK : WithTop Nat :=
    match v.dev with
    | none => ⊤
    | some n => (n : WithTop Nat)
  toLex (v.epoch, toLex (rel, toLex (preK, toLex (postK, devK))))

/-- Model of `packaging.utils.canonicalize_name`: collapse each run of the
characters `-`, `_`, `.` into a single `-`, then lower-case
(`re.sub` with a nonempty-separator-run pattern, then `str.lower`). -/
def isSepChar (c : Char) : Bool := c == '-' || c == '_' || c == '.'

def collapseSepAux : Bool → List Char → List Char
  | _, [] => []
  | prevSep, c :: rest =>
    if isSepChar c then
      if prevSep then collapseSepAux true rest
      else '-' :: collapseSepAux true rest
    else c :: collapseSepAux false rest

def canonicalizeName (s : String) : String :=
  pyLower (String.mk (collapseSepAux false s.data))

/-! ## Python dictionaries -/

abbrev Dict := List (String × String)

def dget (m : Dict) (k : String) : Option String :=
  (m.find? (fun kv => kv.1 == k)).map (fun kv => kv.2)

def dinsert (k v : String) (m : Dict) : Dict :=
  (k, v) :: m.filter (fun kv => kv.1 != k)

/-- Model of `dict.update`: insert every pair of `upd`, later pairs winning. -/
def dmerge (m : Dict) (upd : Dict) : Dict :=
  upd.foldl (fun acc kv => dinsert kv.1 kv.2 acc) m

/-! ## Metadata parser (`PackageManager._parse_metadata`)

The source is a `while` loop over the list of lines with an inner `while`
loop that consumes continuation lines of a `Description` /
`Description-Content-Type` block.  It is embedded as a one-pass state machine
`parseMetaAux`: the third argument is `none` in normal mode and
`some (normalizedKey, linesCollectedSoFar)` while inside a continuation
block; reaching a non-continuation line flushes the block and reprocesses
that line in normal mode, exactly as the source's `continue` re-enters the
outer loop at the first unconsumed line. -/

def isContLine (l : String) : Bool := pyStartsWith l "        " || pyStrip l == ""

/-- Model of `line.split(":", 1)`: the text before the first colon and the
text after it. -/
def splitKV (line : String) : String × String :=
  match pySplitChar ':' line with
  | [] => (line, "")
  | k :: rest => (k, pyJoin ':' rest)

def normKey (key : String) : String := pyReplaceChar '-' '_' (pyLower key)

def isDescKey (key : String) : Bool :=
  key == "Description" || key == "Description-Content-Type"

/-- Handling of one line in normal mode: skip it, record a plain `key: value`
pair, or open a continuation block (second component `some _`). -/
def parseMetaStep (m : Dict) (l : String) : Dict × Option (String × List String) :=
  let line := pyStrip l
  if line == "" || !(pyContainsChar line ':') then (m, none)
  else
    let kv := splitKV line
    let key := pyStrip kv.1
    let value := pyStrip kv.2
    if isDescKey key then
      (m, some (normKey key, if value != "" then [value] else []))
    else (dinsert (normKey key) value m, none)

/-- Closing a continuation block: join the collected lines with newlines,
trim once, store under the already-normalized key. -/
def flushDesc (k : String) (collected : List String) (m : Dict) : Dict :=
  dinsert k (pyStrip (pyJoin '\n' collected)) m

def parseMetaAux : List String → Dict → Option (String × List String) → Dict
  | [], m, none => m
  | [], m, some st => flushDesc st.1 st.2 m
  | l :: rest, m, none =>
    let s := parseMetaStep m l
    parseMetaAux rest s.1 s.2
  | l :: rest, m, some st =>
    if isContLine l then parseMetaAux rest m (some (st.1, st.2 ++ [pyRStrip l]))
    else
      let s := parseMetaStep (flushDesc st.1 st.2 m) l
      parseMetaAux rest s.1 s.2

def _parse_metadata (content : String) : Dict :=
  parseMetaAux (pySplitChar '\n' content) [] none

/-- Statement of the metadata grammar following the words of the
specification (section 4.3): colon-bearing lines become trimmed key/value
pairs under lower_underscore keys; for description-like keys the maximal
following block of lines that are blank or begin with eight spaces is
appended (rstripped) and not reprocessed; colon-less lines are ignored; the
assembled value is joined with newlines and trimmed once.  Used as the
reference side of the refinement theorem for the parser. -/
def parseMetaSpecLoop : List String → Dict → Dict
  | [], m => m
  | l :: rest, m =>
    let line := pyStrip l
    if line == "" || !(pyContainsChar line ':') then parseMetaSpecLoop rest m
    else
      let kv := splitKV line
      let key := pyStrip kv.1
      let value := pyStrip kv.2
      if isDescKey key then
        let contBlock := (rest.takeWhile isContLine).map pyRStrip
        let assembled :=
          pyStrip (pyJoin '\n' ((if value != "" then [value] else []) ++ contBlock))
        parseMetaSpecLoop (rest.dropWhile isContLine) (dinsert (normKey key) assembled m)
      else parseMetaSpecLoop rest (dinsert (normKey key) value m)
termination_by lines _ => lines.length
decreasing_by
  all_goals simp only [List.length_cons]
  all_goals first
    | exact Nat.lt_succ_of_le (List.dropWhile_sublist _).length_le
    | exact Nat.lt_succ_self _

def parseMetadataSpec (content : String) : Dict :=
  parseMetaSpecLoop (pySplitChar '\n' content) []

/-! ## Digest computer (`PackageManager._calculate_hash`)

The source opens the file and streams it in 8192-byte chunks through a
`hashlib` hasher, returning the lowercase hexadecimal digest; any exception
(open failure, read failure) yields the empty string.  The hasher state is
modelled extensionally as the list of bytes fed so far; the digest algorithm
itself (MD5 / SHA-256 compression) is a parameter `digestFn` mapping the full
message to its digest bytes, since its internals are outside the repository.
A failing read is modelled by `bytes = none`. -/

def CHUNK : Nat := 8192

def chunksOf : List Nat → List (List Nat)
  | [] => []
  | b :: bs => (b :: bs).take CHUNK :: chunksOf ((b :: bs).drop CHUNK)
termination_by l => l.length
decreasing_by
  simp only [List.length_cons, List.length_drop, CHUNK]
  omega

def hexChar (n : Nat) : Char :=
  if n < 10 then Char.ofNat (48 + n) else Char.ofNat (97 + (n - 10))

/-- Model of `hexdigest()` on the digest bytes: two lowercase hex characters
per byte, high nibble first. -/
def hexOfBytes (bs : List Nat) : String :=
  String.mk (bs.foldr (fun b acc => hexChar ((b % 256) / 16) :: hexChar (b % 16) :: acc) [])

def hasherUpdate (st chunk : List Nat) : List Nat := st ++ chunk

def _calculate_hash (digestFn : List Nat → List Nat) (bytes : Option (List Nat)) : String :=
  match bytes with
  | none => ""
  | some bs => hexOfBytes (digestFn ((chunksOf bs).foldl hasherUpdate []))

/-! ## File system and package data model -/

/-- One regular file under the storage root.  `bytes = none` models a file
whose content cannot be read (digest computation fails); `members = none`
models an archive that cannot be opened (zip/tar error, e.g. a zero-byte
file); `members = some l` lists the readable archive entries as
(member name, decoded text). -/
structure PMFile where
  mtime : String
  size : Nat
  bytes : Option (List Nat)
  members : Option (List (String × String))
deriving Repr, DecidableEq

/-- The storage tree as seen by `Path.rglob`: regular files in enumeration
order, keyed by their path relative to the storage root. -/
abbrev FileSys := List (String × PMFile)

def fsLookup (fs : FileSys) (p : String) : Option PMFile :=
  (fs.find? (fun kv => kv.1 == p)).map (fun kv => kv.2)

/-- The `package_info` dictionary: the six stat/digest fields the source
always sets, plus the metadata fields merged in by
`package_info.update(metadata)`. -/
structure PackageInfo where
  filename : String
  path : String
  size : Nat
  uploadTime : String
  md5Digest : String
  sha256Digest : String
  meta : Dict
deriving Repr, DecidableEq

def getMeta (info : PackageInfo) (k : String) : Option String := dget info.meta k

abbrev Cache := List (String × PackageInfo)

def cacheLookup (c : Cache) (k : String) : Option PackageInfo :=
  (c.find? (fun kv => kv.1 == k)).map (fun kv => kv.2)

def cacheInsert (k : String) (v : PackageInfo) (c : Cache) : Cache := (k, v) :: c

/-! ## Archive inspectors -/

/-- Model of `PackageManager._extract_wheel_metadata`: first zip member whose
name ends with `.dist-info/METADATA`; unreadable archive or missing member
degrade to the empty metadata dict. -/
def _extract_wheel_metadata (f : PMFile) : Dict :=
  match f.members with
  | none => []
  | some ms =>
    match ms.find? (fun m => pyEndsWith m.1 ".dist-info/METADATA") with
    | some m => _parse_metadata m.2
    | none => []

/-- Model of `PackageManager._extract_sdist_metadata`: first tar member named
`PKG-INFO` bare or at any depth. -/
def _extract_sdist_metadata (f : PMFile) : Dict :=
  match f.members with
  | none => []
  | some ms =>
    match ms.find? (fun m => pyEndsWith m.1 "/PKG-INFO" || m.1 == "PKG-INFO") with
    | some m => _parse_metadata m.2
    | none => []

/-! ## Filename resolution -/

/-- Model of `packaging.utils.parse_sdist_filename` for `.tar.gz` names (the
only way the source reaches it): strip the double suffix, split at the last
hyphen (`rpartition`), canonicalize the name part and require a valid PEP 440
version; `none` models the `InvalidSdistFilename` / `InvalidVersion`
exceptions. -/
def parse_sdist_filename (filename : String) : Option (String × String) :=
  if pyEndsWith filename ".tar.gz" then
    let stem := pyDropRight filename 7
    let parts := pySplitChar '-' stem
    match parts with
    | [] => none
    | [_] => none
    | _ :: _ :: _ =>
      let namePart := pyJoin '-' parts.dropLast
      let verPart := (parts.getLast?).getD ""
      match parseVersion verPart with
      | none => none
      | some v => some (canonicalizeName namePart, pyVersionStr v)
  else none

/-- Model of `Path.suffix` (cpython): the substring from the last dot of the
base name, provided that dot is neither the first nor the last character. -/
def pathSuffix (name : String) : String :=
  let cs := name.data
  match (cs.reverse.findIdx? (fun c => c == '.')).map (fun j => cs.length - 1 - j) with
  | none => ""
  | some i => if 0 < i ∧ i < cs.length - 1 then String.mk (cs.drop i) else ""

/-- Model of `Path.name`: the final path component. -/
def baseName (p : String) : String := ((pySplitChar '/' p).getLast?).getD p

/-! ## `PackageManager.get_package_info` -/

/-- Ambient parameters of the manager: the two digest algorithms (external to
the repository) and the storage-root path used to form cache keys. -/
structure PMConfig where
  md5Fn : List Nat → List Nat
  sha256Fn : List Nat → List Nat
  dataDir : String

/-- Model of the cache key `f"{file_path}:{file_path.stat().st_mtime}"`,
where `file_path` is the storage-root-prefixed path. -/
def cacheKeyOf (cfg : PMConfig) (path mtime : String) : String :=
  cfg.dataDir ++ "/" ++ path ++ ":" ++ mtime

/-- Result of one `get_package_info` call: the returned value, the cache
after the call, and `heavy`, the number of file-content passes performed
(two digest computations plus one archive inspection on a cache miss; zero on
a cache hit), instrumenting the re-invocation properties of the spec. -/
structure GPIResult where
  info : Option PackageInfo
  cache : Cache
  heavy : Nat
deriving Repr

/-- Model of `PackageManager.get_package_info`.

Note on the wheel branch: the source executes
`name, version, build_tag, python_tag, abi_tag, platform_tag =
parse_wheel_filename(filename)`, but `packaging.utils.parse_wheel_filename`
returns a 4-tuple `(name, version, build, tags)` in every released version of
the library, so the 6-name unpacking always raises `ValueError`, which the
surrounding `except Exception: pass` swallows: the `metadata.update` for
wheel filenames never executes, and wheel metadata comes solely from the
archive.  The sdist branch unpacks a 2-tuple and does execute. -/
def get_package_info (cfg : PMConfig) (fs : FileSys) (cache : Cache) (path : String) :
    GPIResult :=
  match fsLookup fs path with
  | none => ⟨none, cache, 0⟩
  | some f =>
    let ckey := cacheKeyOf cfg path f.mtime
    match cacheLookup cache ckey with
    | some v => ⟨some v, cache, 0⟩
    | none =>
      let filename := baseName path
      let base : PackageInfo :=
        { filename := filename
          path := path
          size := f.size
          uploadTime := f.mtime
          md5Digest := _calculate_hash cfg.md5Fn f.bytes
          sha256Digest := _calculate_hash cfg.sha256Fn f.bytes
          meta := [] }
      let metaHeavy : Dict × Nat :=
        if pyEndsWith filename ".whl" then
          (_extract_wheel_metadata f, 1)
        else if pyEndsWith filename ".tar.gz" then
          let m := _extract_sdist_metadata f
          match parse_sdist_filename filename with
          | some nv => (dmerge m [("name", nv.1), ("version", nv.2)], 1)
          | none =>
            let bn := pyReplace filename ".tar.gz" ""
            let parts := pySplitChar '-' bn
            if parts.length ≥ 2 then
              (dmerge m [("name", pyJoin '-' parts.dropLast),
                         ("version", (parts.getLast?).getD "")], 1)
            else (m, 1)
        else ([], 0)
      let info := { base with meta := metaHeavy.1 }
      ⟨some info, cacheInsert ckey info cache, 2 + metaHeavy.2⟩

/-! ## Catalog builder (`PackageManager.get_all_packages`) -/

/-- Model of `PackageManager._version_key`: parse the version string; on
`InvalidVersion` fall back to `parse_version("0.0.0")`, whose parsed form is
`⟨0, [0, 0, 0], none, none, none⟩` (checked by `parseVersion_zero` below). -/
def _version_key (s : String) : VerKeyT :=
  cmpKey ((parseVersion s).getD ⟨0, [0, 0, 0], none, none, none⟩)

/-- Model of `x.get('version', '0.0.0')` inside the sort key. -/
def verOf (info : PackageInfo) : String := (getMeta info "version").getD "0.0.0"

/-- The ordering used by `packages[name].sort(key=..., reverse=True)`:
`a` may precede `b` exactly when the key of `b` does not exceed the key of
`a`. -/
def versionRel (a b : PackageInfo) : Prop :=
  _version_key (verOf b) ≤ _version_key (verOf a)

instance : DecidableRel versionRel := fun a b =>
  inferInstanceAs (Decidable (_version_key (verOf b) ≤ _version_key (verOf a)))

instance : IsTotal PackageInfo versionRel :=
  ⟨fun a b => le_total (_version_key (verOf b)) (_version_key (verOf a))⟩

instance : IsTrans PackageInfo versionRel :=
  ⟨fun _ _ _ h1 h2 => le_trans h2 h1⟩

/-- Model of `list.sort(key=self._version_key(...), reverse=True)`: a stable
descending sort (Python Timsort is stable also under `reverse=True`; any
stable sort of the same total preorder computes the same list). -/
def pySortDesc (l : List PackageInfo) : List PackageInfo := List.insertionSort versionRel l

abbrev Catalog := List (String × List PackageInfo)

/-- Grouping step: append to the existing group or create a new one at the
end (dict insertion order). -/
def addToGroup (cat : Catalog) (name : String) (info : PackageInfo) : Catalog :=
  if cat.any (fun g => g.1 == name) then
    cat.map (fun g => if g.1 == name then (g.1, g.2 ++ [info]) else g)
  else cat ++ [(name, [info])]

/-- Scan phase of `get_all_packages`: walk the enumerated files; skip those
matching neither recognized suffix; obtain `package_info` (threading the
cache); group by `package_info['name'].lower()`.  A missing `'name'` key
raises `KeyError`, which the `except Exception` handler swallows after
printing: the file contributes nothing. -/
def buildGroups (cfg : PMConfig) (fs : FileSys) (cache : Cache) : Catalog × Cache :=
  fs.foldl
    (fun acc entry =>
      let p := entry.1
      let fname := baseName p
      if pathSuffix fname == ".whl" || pyEndsWith fname ".tar.gz" then
        let r := get_package_info cfg fs acc.2 p
        match r.info with
        | none => (acc.1, r.cache)
        | some info =>
          match getMeta info "name" with
          | none => (acc.1, r.cache)
          | some n => (addToGroup acc.1 (pyLower n) info, r.cache)
      else acc)
    ([], cache)

/-- Model of `PackageManager.get_all_packages`: scan, group, then sort each
group by parsed version, descending. -/
def get_all_packages (cfg : PMConfig) (fs : FileSys) (cache : Cache) : Catalog × Cache :=
  let built := buildGroups cfg fs cache
  (built.1.map (fun g => (g.1, pySortDesc g.2)), built.2)

/-! ## Query layer -/

structure SearchResult where
  name : String
  latestVersion : String
  summary : String
  description : String
  author : String
  homePage : String
  versions : List String
deriving Repr, DecidableEq

def mkSearchResult (name : String) (src : Option PackageInfo)
    (versions : List PackageInfo) : SearchResult :=
  { name := name
    latestVersion := ((src.bind (fun i => getMeta i "version")).getD "unknown")
    summary := ((src.bind (fun i => getMeta i "summary")).getD "")
    description := ((src.bind (fun i => getMeta i "description")).getD "")
    author := ((src.bind (fun i => getMeta i "author")).getD "")
    homePage := ((src.bind (fun i => getMeta i "home_page")).getD "")
    versions := versions.map (fun v => (getMeta v "version").getD "unknown") }

/-- Model of `PackageManager.search_packages`: lower-case the query, rebuild
the catalog, then for each group include one result if the query is a
substring of the name; otherwise scan the versions in order and include the
first one whose summary or description contains the query. -/
def search_packages (cfg : PMConfig) (fs : FileSys) (cache : Cache) (query : String) :
    List SearchResult × Cache :=
  let q := pyLower query
  let pc := get_all_packages cfg fs cache
  let results := pc.1.foldl
    (fun acc g =>
      if strContains q (pyLower g.1) then
        acc ++ [mkSearchResult g.1 g.2.head? g.2]
      else
        match g.2.find? (fun v =>
            strContains q (pyLower ((getMeta v "summary").getD "")) ||
            strContains q (pyLower ((getMeta v "description").getD ""))) with
        | some v => acc ++ [mkSearchResult g.1 (some v) g.2]
        | none => acc)
    []
  (results, pc.2)

/-! ## Deletion (`PackageManager.delete_package`) -/

/-- Model of `PackageManager.delete_package`: `none` models the
`FileNotFoundError` raised for an absent file; otherwise the file is removed
and every cache key that contains the file name as a substring
(`if filename in key`) is evicted. -/
def delete_package (fs : FileSys) (cache : Cache) (filename : String) :
    Option (FileSys × Cache) :=
  match fsLookup fs filename with
  | none => none
  | some _ =>
    some (fs.filter (fun kv => kv.1 != filename),
          cache.filter (fun kv => !(strContains filename kv.1)))

/-! ## Concrete fixtures used by counterexamples and witnesses

The digest parameter is irrelevant to the grouping, naming, search and
deletion behaviour exercised below; the fixtures use a stub digest function
and unreadable file contents (`bytes := none`, the read-failure case), so the
digest fields are the empty string throughout. -/

def digestStub : List Nat → List Nat := fun _ => []

def cfgC : PMConfig := ⟨digestStub, digestStub, "data"⟩

/-- A zero-byte file named `broken.whl`: stat succeeds (size 0), the zip
cannot be opened (`members := none`). -/
def fsBrokenWhl : FileSys := [("broken.whl", ⟨"1700.0", 0, none, none⟩)]

/-- A well-formed sdist name whose embedded `PKG-INFO` disagrees with the
filename about both name and version. -/
def pkgInfoConflict : String := "Name: alpha\nVersion: 9.9\nSummary: test pkg"

def fsConflict : FileSys :=
  [("beta-1.0.tar.gz", ⟨"1.0", 5, none, some [("beta-1.0/PKG-INFO", pkgInfoConflict)]⟩)]

/-- Minimal single-file storage tree with a parseable sdist name. -/
def fsSimple : FileSys := [("a-1.0.tar.gz", ⟨"1", 0, none, none⟩)]

/-- Two files in one group: a parseable dev release `0.0.0.dev0` and an
unparseable version string `garbage`. -/
def fsTwoVers : FileSys :=
  [("pkg-0.0.0.dev0.tar.gz", ⟨"1", 1, none, none⟩),
   ("pkg-garbage.tar.gz", ⟨"2", 1, none, none⟩)]

/-- An sdist name with no hyphen at all and unreadable archive contents. -/
def fsNoHyphen : FileSys := [("pkg.tar.gz", ⟨"1", 0, none, none⟩)]

/-- An sdist name whose name part contains an underscore. -/
def fsUnderscore : FileSys := [("my_pkg-1.0.tar.gz", ⟨"1", 0, none, none⟩)]

def infoStub : PackageInfo := ⟨"", "", 0, "", "", "", []⟩

/-- Two distinct files whose names overlap as substrings, with one cache
entry each (keys as `get_package_info` would build them under `cfgC`). -/
def fsOverlap : FileSys :=
  [("a.whl", ⟨"1", 0, none, none⟩), ("xa.whl", ⟨"2", 0, none, none⟩)]

def cacheOverlap : Cache := [("data/a.whl:1", infoStub), ("data/xa.whl:2", infoStub)]

/-! ## Shared lemmas -/

theorem parseVersion_zero : parseVersion "0.0.0" = some ⟨0, [0, 0, 0], none, none, none⟩ := by
  decide

theorem dget_dinsert_self (k v : String) (m : Dict) : dget (dinsert k v m) k = some v := by
  simp [dget, dinsert, List.find?]

theorem find?_filter_ne (k k2 : String) (m : Dict) (h : k2 ≠ k) :
    (m.filter (fun kv => kv.1 != k)).find? (fun kv => kv.1 == k2) =
      m.find? (fun kv => kv.1 == k2) := by
  induction m with
  | nil => rfl
  | cons hd tl ih =>
    by_cases hq : hd.1 = k2
    · have hne : ((fun kv : String × String => kv.1 != k) hd) = true := by
        simp only [bne_iff_ne, ne_eq, hq]; exact h
      have hpos : ((fun kv : String × String => kv.1 == k2) hd) = true := by simp [hq]
      rw [@List.filter_cons_of_pos _ (fun kv => kv.1 != k) hd tl hne,
        @List.find?_cons_of_pos _ (fun kv => kv.1 == k2) hd tl hpos,
        @List.find?_cons_of_pos _ (fun kv => kv.1 == k2) hd
          (tl.filter (fun kv => kv.1 != k)) hpos]
    · have hq2 : ¬ ((fun kv : String × String => kv.1 == k2) hd) = true := by simp [hq]
      rw [@List.find?_cons_of_neg _ (fun kv => kv.1 == k2) hd tl hq2]
      by_cases hkk : hd.1 = k
      · have hneg : ¬ ((fun kv : String × String => kv.1 != k) hd) = true := by simp [hkk]
        rw [@List.filter_cons_of_neg _ (fun kv => kv.1 != k) hd tl hneg]
        exact ih
      · have hpos : ((fun kv : String × String => kv.1 != k) hd) = true := by simp [hkk]
        rw [@List.filter_cons_of_pos _ (fun kv => kv.1 != k) hd tl hpos,
          @List.find?_cons_of_neg _ (fun kv => kv.1 == k2) hd
            (tl.filter (fun kv => kv.1 != k)) hq2]
        exact ih

theorem dget_dinsert_ne (k v k2 : String) (m : Dict) (h : k2 ≠ k) :
    dget (dinsert k v m) k2 = dget m k2 := by
  have hk : (k == k2) = false := by
    simp only [beq_eq_false_iff_ne, ne_eq]
    intro hc; exact h hc.symm
  simp only [dget, dinsert, List.find?_cons, hk]
  rw [find?_filter_ne k k2 m h]

theorem strContains_empty (hay : String) : strContains "" hay = true := by
  simp only [strContains, decide_eq_true_eq]
  exact List.nil_infix

theorem cacheLookup_insert_self (k : String) (v : PackageInfo) (c : Cache) :
    cacheLookup (cacheInsert k v c) k = some v := by
  simp [cacheLookup, cacheInsert, List.find?]

theorem cacheKeyOf_mtime_inj (cfg : PMConfig) (path m1 m2 : String) (h : m1 ≠ m2) :
    cacheKeyOf cfg path m1 ≠ cacheKeyOf cfg path m2 := by
  intro he
  have hd := congrArg String.data he
  simp only [cacheKeyOf, String.data_append] at hd
  exact h (String.ext (List.append_cancel_left hd))

theorem gpi_repeat (cfg : PMConfig) (fs : FileSys) (cache : Cache) (path : String) :
    (get_package_info cfg fs (get_package_info cfg fs cache path).cache path).info =
        (get_package_info cfg fs cache path).info ∧
      (get_package_info cfg fs (get_package_info cfg fs cache path).cache path).heavy = 0 ∧
      (get_package_info cfg fs (get_package_info cfg fs cache path).cache path).cache =
        (get_package_info cfg fs cache path).cache := by
  cases hf : fsLookup fs path with
  | none => simp [get_package_info, hf]
  | some f =>
    cases hc : cacheLookup cache (cacheKeyOf cfg path f.mtime) with
    | some v => simp [get_package_info, hf, hc]
    | none =>
      simp only [get_package_info, hf, hc]
      simp [cacheLookup_insert_self]

theorem gpi_miss_heavy (cfg : PMConfig) (fs : FileSys) (cache : Cache) (path : String)
    (f : PMFile) (hf : fsLookup fs path = some f)
    (hc : cacheLookup cache (cacheKeyOf cfg path f.mtime) = none) :
    2 ≤ (get_package_info cfg fs cache path).heavy := by
  simp only [get_package_info, hf, hc]
  exact Nat.le_add_right 2 _

theorem chunksOf_foldl_aux :
    ∀ (n : Nat) (bs : List Nat), bs.length ≤ n →
      ∀ acc, (chunksOf bs).foldl hasherUpdate acc = acc ++ bs := by
  intro n
  induction n with
  | zero =>
    intro bs h acc
    have : bs = [] := List.eq_nil_of_length_eq_zero (Nat.le_zero.mp h)
    subst this
    simp [chunksOf]
  | succ n ih =>
    intro bs h acc
    match bs with
    | [] => simp [chunksOf]
    | b :: rest =>
      rw [chunksOf]
      simp only [List.foldl_cons]
      have hlen : ((b :: rest).drop CHUNK).length ≤ n := by
        simp only [List.length_drop, List.length_cons, CHUNK]
        simp only [List.length_cons] at h
        omega
      rw [ih _ hlen]
      simp only [hasherUpdate]
      rw [List.append_assoc, List.take_append_drop]

theorem chunksOf_join (bs : List Nat) : (chunksOf bs).foldl hasherUpdate [] = bs := by
  simpa using chunksOf_foldl_aux bs.length bs le_rfl []

theorem hexChar_mem_digits : ∀ n, n < 16 → hexChar n ∈ ("0123456789abcdef").data := by decide

theorem hexOfBytes_chars (bs : List Nat) :
    ∀ c ∈ (hexOfBytes bs).data, c ∈ ("0123456789abcdef").data := by
  induction bs with
  | nil => intro c hc; simp [hexOfBytes] at hc
  | cons b rest ih =>
    intro c hc
    simp only [hexOfBytes, List.foldr_cons, List.mem_cons] at hc
    rcases hc with h1 | h2 | h3
    · exact h1 ▸ hexChar_mem_digits _ (by omega)
    · exact h2 ▸ hexChar_mem_digits _ (by omega)
    · exact ih c h3

theorem strContains_cacheKey (cfg : PMConfig) (fn m : String) :
    strContains fn (cacheKeyOf cfg fn m) = true := by
  simp only [strContains, cacheKeyOf, String.data_append, decide_eq_true_eq]
  exact ⟨cfg.dataDir.data ++ "/".data, ":".data ++ m.data, by simp [List.append_assoc]⟩

/-! ## Claim theorems -/

/-- Claim C5: when a file's path and modification time are unchanged between
two `get_package_info` calls, the second call returns the same value with no
archive-inspection, metadata-parsing or digest work (`heavy = 0`) and leaves
the cache unchanged; a changed modification time yields a different cache
key, and a call that misses the cache performs the digest computations
(`heavy ≥ 2`, i.e. full recomputation). -/
theorem C5_theorem :
    (∀ (cfg : PMConfig) (fs : FileSys) (cache : Cache) (path : String),
      (get_package_info cfg fs (get_package_info cfg fs cache path).cache path).info =
          (get_package_info cfg fs cache path).info ∧
        (get_package_info cfg fs (get_package_info cfg fs cache path).cache path).heavy = 0 ∧
        (get_package_info cfg fs (get_package_info cfg fs cache path).cache path).cache =
          (get_package_info cfg fs cache path).cache) ∧
    (∀ (cfg : PMConfig) (path m1 m2 : String), m1 ≠ m2 →
      cacheKeyOf cfg path m1 ≠ cacheKeyOf cfg path m2) ∧
    (∀ (cfg : PMConfig) (fs : FileSys) (cache : Cache) (path : String) (f : PMFile),
      fsLookup fs path = some f →
      cacheLookup cache (cacheKeyOf cfg path f.mtime) = none →
      2 ≤ (get_package_info cfg fs cache path).heavy) :=
  ⟨gpi_repeat, cacheKeyOf_mtime_inj, gpi_miss_heavy⟩

/-- Witness for C5 at concrete inputs. -/
theorem C5_witness :
    ((get_package_info cfgC fsSimple (get_package_info cfgC fsSimple [] "a-1.0.tar.gz").cache
          "a-1.0.tar.gz").heavy = 0) ∧
    cacheKeyOf cfgC "a-1.0.tar.gz" "1" ≠ cacheKeyOf cfgC "a-1.0.tar.gz" "2" ∧
    2 ≤ (get_package_info cfgC fsSimple [] "a-1.0.tar.gz").heavy :=
  ⟨(C5_theorem.1 cfgC fsSimple [] "a-1.0.tar.gz").2.1,
   C5_theorem.2.1 cfgC "a-1.0.tar.gz" "1" "2" (by decide),
   C5_theorem.2.2 cfgC fsSimple [] "a-1.0.tar.gz" ⟨"1", 0, none, none⟩ (by decide) (by decide)⟩

/-- Claim C9: `_calculate_hash` returns the empty string on a read failure;
on success the streamed chunks reassemble exactly the file content, the
result is the hex encoding of the digest of that content, and every character
of the result is a lowercase hexadecimal digit; moreover a digest failure
never prevents the file from entering the catalog — `get_package_info`
returns an entry for every existing file regardless of its readability. -/
theorem C9_theorem (digestFn : List Nat → List Nat) (bytes : Option (List Nat))
    (bs : List Nat) (hb : bytes = some bs) :
    _calculate_hash digestFn none = "" ∧
    (chunksOf bs).foldl hasherUpdate [] = bs ∧
    _calculate_hash digestFn bytes = hexOfBytes (digestFn bs) ∧
    (∀ c ∈ (_calculate_hash digestFn bytes).data, c ∈ ("0123456789abcdef").data) ∧
    (∀ (cfg : PMConfig) (fs : FileSys) (cache : Cache) (path : String) (f : PMFile),
      fsLookup fs path = some f →
      ((get_package_info cfg fs cache path).info).isSome = true) := by
  subst hb
  refine ⟨rfl, chunksOf_join bs, ?_, ?_, ?_⟩
  · simp [_calculate_hash, chunksOf_join]
  · simp only [_calculate_hash, chunksOf_join]
    exact hexOfBytes_chars _
  · intro cfg fs cache path f hf
    cases hc : cacheLookup cache (cacheKeyOf cfg path f.mtime) with
    | some v => simp [get_package_info, hf, hc]
    | none => simp [get_package_info, hf, hc]

/-- Witness for C9 at a concrete three-byte input. -/
theorem C9_witness :
    _calculate_hash digestStub none = "" ∧
    (chunksOf [1, 2, 3]).foldl hasherUpdate [] = [1, 2, 3] ∧
    _calculate_hash digestStub (some [1, 2, 3]) = hexOfBytes (digestStub [1, 2, 3]) ∧
    (∀ c ∈ (_calculate_hash digestStub (some [1, 2, 3])).data,
      c ∈ ("0123456789abcdef").data) ∧
    (∀ (cfg : PMConfig) (fs : FileSys) (cache : Cache) (path : String) (f : PMFile),
      fsLookup fs path = some f →
      ((get_package_info cfg fs cache path).info).isSome = true) :=
  C9_theorem digestStub (some [1, 2, 3]) [1, 2, 3] rfl

/-- Claim C10, counterexample: deleting `a.whl` also evicts the cache entry
of the different file `xa.whl` (key `data/xa.whl:2`), because eviction tests
`filename in key` by substring: the resulting cache is empty although an
entry for another path was present. -/
theorem C10_counterexample :
    (delete_package fsOverlap cacheOverlap "a.whl").map (fun pr => pr.2) = some [] ∧
    ("data/xa.whl:2", infoStub) ∈ cacheOverlap ∧
    ("data/xa.whl:2" : String) ≠ "data/a.whl:1" := by decide

/-- Claim C10 as amended: deleting an existing file evicts exactly the cache
entries whose key contains the file name as a substring — in particular every
key the manager ever built for that file (they embed the file path) is
evicted, while an entry survives exactly when its key does not contain the
deleted file name. -/
theorem C10_theorem (cfg : PMConfig) (fs : FileSys) (cache : Cache) (fn : String)
    (f : PMFile) (hf : fsLookup fs fn = some f) :
    ∃ pr, delete_package fs cache fn = some pr ∧
      pr.2 = cache.filter (fun kv => !(strContains fn kv.1)) ∧
      (∀ (m : String) (info : PackageInfo), (cacheKeyOf cfg fn m, info) ∉ pr.2) ∧
      (∀ kv ∈ cache, strContains fn kv.1 = false → kv ∈ pr.2) := by
  refine ⟨(fs.filter (fun kv => kv.1 != fn),
           cache.filter (fun kv => !(strContains fn kv.1))), ?_, rfl, ?_, ?_⟩
  · simp [delete_package, hf]
  · intro m info hmem
    rw [List.mem_filter] at hmem
    have hck := strContains_cacheKey cfg fn m
    simp [hck] at hmem
  · intro kv hkv hfc
    rw [List.mem_filter]
    exact ⟨hkv, by simp [hfc]⟩

/-- Witness for C10 at concrete inputs. -/
theorem C10_witness :
    ∃ pr, delete_package fsOverlap cacheOverlap "xa.whl" = some pr ∧
      pr.2 = cacheOverlap.filter (fun kv => !(strContains "xa.whl" kv.1)) ∧
      (∀ (m : String) (info : PackageInfo), (cacheKeyOf cfgC "xa.whl" m, info) ∉ pr.2) ∧
      (∀ kv ∈ cacheOverlap, strContains "xa.whl" kv.1 = false → kv ∈ pr.2) :=
  C10_theorem cfgC fsOverlap cacheOverlap "xa.whl" ⟨"2", 0, none, none⟩ (by decide)

/-- Claim C1, counterexample: for a zero-byte `broken.whl` the build
completes but produces an empty catalog — no `broken` group exists, because
`package_info` has no `name` key (metadata extraction fails and the wheel
filename unpacking always fails), so `get_all_packages` hits a `KeyError`
that its handler swallows, dropping the file. -/
theorem C1_counterexample :
    (get_all_packages cfgC fsBrokenWhl []).1 = [] ∧
    ((get_package_info cfgC fsBrokenWhl [] "broken.whl").info.map
      (fun i => getMeta i "name")) = some none := by decide

/-- Claim C2, counterexample: an sdist whose embedded `PKG-INFO` names the
package `alpha` version `9.9` but whose filename is `beta-1.0.tar.gz` ends up
with the filename-derived values: `metadata.update` with the parsed filename
overwrites the archive metadata, the opposite of the claimed precedence. -/
theorem C2_counterexample :
    dget (_parse_metadata pkgInfoConflict) "name" = some "alpha" ∧
    dget (_parse_metadata pkgInfoConflict) "version" = some "9.9" ∧
    ((get_package_info cfgC fsConflict [] "beta-1.0.tar.gz").info.map
      (fun i => (getMeta i "name", getMeta i "version"))) =
        some (some "beta", some "1.0") := by decide

/-- Claim C3, counterexample: with one package in the catalog, the empty
query returns one result (the whole catalog), not an empty sequence —
`"" in name` is true for every name. -/
theorem C3_counterexample :
    (search_packages cfgC fsSimple [] "").1.length = 1 ∧
    (get_all_packages cfgC fsSimple []).1.length = 1 := by decide

/-- Claim C4, counterexample: in a group holding the parseable version
`0.0.0.dev0` and the unparseable `garbage`, the unparseable entry is placed
FIRST, not after every parseable one: its fallback key `0.0.0` exceeds the
dev-release key. -/
theorem C4_counterexample :
    ((get_all_packages cfgC fsTwoVers []).1.map (fun g => (g.1, g.2.map verOf))) =
        [("pkg", ["garbage", "0.0.0.dev0"])] ∧
    parseVersion "garbage" = none ∧
    (parseVersion "0.0.0.dev0").isSome = true := by decide

/-- Claim C7, counterexample: for `pkg.tar.gz` (no hyphen, unreadable
archive) the resolver sets no fields at all — there is no fallback to the
unmodified filename as name with an empty version; consequently the catalog
drops the file entirely. -/
theorem C7_counterexample :
    ((get_package_info cfgC fsNoHyphen [] "pkg.tar.gz").info.map
      (fun i => (getMeta i "name", getMeta i "version"))) = some (none, none) ∧
    (get_all_packages cfgC fsNoHyphen []).1 = [] := by decide

/-- Claim C8, counterexample: resolving `my_pkg-1.0.tar.gz` yields the name
`my-pkg` — the underscore is substituted by a hyphen (`canonicalize_name`),
so lower-casing is not the only transformation. -/
theorem C8_counterexample :
    ((get_package_info cfgC fsUnderscore [] "my_pkg-1.0.tar.gz").info.map
      (fun i => getMeta i "name")) = some (some "my-pkg") ∧
    pyLower "my_pkg" = "my_pkg" ∧ ("my-pkg" : String) ≠ "my_pkg" := by decide

/-- Claim C3 as amended: the empty query matches every group by name
(`"" in name` holds for every name), so `search_packages` with the empty
string returns one result per catalog group — the full catalog, not an empty
sequence. -/
theorem C3_theorem (cfg : PMConfig) (fs : FileSys) (cache : Cache) :
    (search_packages cfg fs cache "").1.length = (get_all_packages cfg fs cache).1.length := by
  have hlen : ∀ (groups : Catalog) (acc : List SearchResult),
      (groups.foldl (fun acc g =>
        if strContains (pyLower "") (pyLower g.1) then
          acc ++ [mkSearchResult g.1 g.2.head? g.2]
        else
          match g.2.find? (fun v =>
              strContains (pyLower "") (pyLower ((getMeta v "summary").getD "")) ||
              strContains (pyLower "") (pyLower ((getMeta v "description").getD ""))) with
          | some v => acc ++ [mkSearchResult g.1 (some v) g.2]
          | none => acc) acc).length = acc.length + groups.length := by
    intro groups
    induction groups with
    | nil => intro acc; simp
    | cons g rest ih =>
      intro acc
      rw [List.foldl_cons]
      have hc : strContains (pyLower "") (pyLower g.1) = true := strContains_empty _
      rw [if_pos hc]
      rw [ih]
      simp [List.length_append]
      omega
  have hdef : (search_packages cfg fs cache "").1 =
      ((get_all_packages cfg fs cache).1.foldl (fun acc g =>
        if strContains (pyLower "") (pyLower g.1) then
          acc ++ [mkSearchResult g.1 g.2.head? g.2]
        else
          match g.2.find? (fun v =>
              strContains (pyLower "") (pyLower ((getMeta v "summary").getD "")) ||
              strContains (pyLower "") (pyLower ((getMeta v "description").getD ""))) with
          | some v => acc ++ [mkSearchResult g.1 (some v) g.2]
          | none => acc) []) := rfl
  rw [hdef, hlen]
  simp

theorem not_whl_of_targz (s : String) (h : pyEndsWith s ".tar.gz" = true) :
    pyEndsWith s ".whl" = false := by
  simp only [pyEndsWith, decide_eq_true_eq] at h
  simp only [pyEndsWith, decide_eq_false_iff_not]
  intro hw
  rcases List.suffix_or_suffix_of_suffix hw h with h1 | h2
  · exact absurd h1 (by decide)
  · exact absurd h2 (by decide)

theorem parse_sdist_some_targz (fn n v : String) (h : parse_sdist_filename fn = some (n, v)) :
    pyEndsWith fn ".tar.gz" = true := by
  cases hE : pyEndsWith fn ".tar.gz" with
  | true => rfl
  | false => simp [parse_sdist_filename, hE] at h

/-- Claim C2 as amended: for sdists, when the filename parses, the
filename-derived (canonicalized) name and (normalized) version OVERWRITE any
metadata-derived values — metadata survives only when filename parsing fails;
for wheels the filename unpacking always raises (the library returns a
4-tuple unpacked into six names), so archive metadata stands untouched. -/
theorem C2_theorem :
    (∀ (cfg : PMConfig) (fs : FileSys) (cache : Cache) (path : String) (f : PMFile)
        (n v : String),
      fsLookup fs path = some f →
      cacheLookup cache (cacheKeyOf cfg path f.mtime) = none →
      parse_sdist_filename (baseName path) = some (n, v) →
      ∃ info, (get_package_info cfg fs cache path).info = some info ∧
        getMeta info "name" = some n ∧ getMeta info "version" = some v) ∧
    (∀ (cfg : PMConfig) (fs : FileSys) (cache : Cache) (path : String) (f : PMFile),
      fsLookup fs path = some f →
      cacheLookup cache (cacheKeyOf cfg path f.mtime) = none →
      pyEndsWith (baseName path) ".whl" = true →
      ∃ info, (get_package_info cfg fs cache path).info = some info ∧
        info.meta = _extract_wheel_metadata f) := by
  constructor
  · intro cfg fs cache path f n v hf hc hp
    have htg := parse_sdist_some_targz _ _ _ hp
    have hwl := not_whl_of_targz _ htg
    simp only [get_package_info, hf, hc, hwl, htg, hp, Bool.false_eq_true, if_false, if_true]
    refine ⟨_, rfl, ?_, ?_⟩
    · show dget (dmerge (_extract_sdist_metadata f) [("name", n), ("version", v)]) "name" =
        some n
      show dget (dinsert "version" v (dinsert "name" n (_extract_sdist_metadata f))) "name" =
        some n
      rw [dget_dinsert_ne _ _ _ _ (by decide), dget_dinsert_self]
    · show dget (dmerge (_extract_sdist_metadata f) [("name", n), ("version", v)]) "version" =
        some v
      show dget (dinsert "version" v (dinsert "name" n (_extract_sdist_metadata f))) "version" =
        some v
      rw [dget_dinsert_self]
  · intro cfg fs cache path f hf hc hw
    simp only [get_package_info, hf, hc, hw, if_true]
    exact ⟨_, rfl, rfl⟩

/-- Witness for C2 at concrete inputs: the conflicting sdist and the
zero-byte wheel. -/
theorem C2_witness :
    (∃ info, (get_package_info cfgC fsConflict [] "beta-1.0.tar.gz").info = some info ∧
      getMeta info "name" = some "beta" ∧ getMeta info "version" = some "1.0") ∧
    (∃ info, (get_package_info cfgC fsBrokenWhl [] "broken.whl").info = some info ∧
      info.meta = _extract_wheel_metadata ⟨"1700.0", 0, none, none⟩) :=
  ⟨C2_theorem.1 cfgC fsConflict [] "beta-1.0.tar.gz"
      ⟨"1.0", 5, none, some [("beta-1.0/PKG-INFO", pkgInfoConflict)]⟩ "beta" "1.0"
      (by decide) (by decide) (by decide),
   C2_theorem.2 cfgC fsBrokenWhl [] "broken.whl" ⟨"1700.0", 0, none, none⟩
      (by decide) (by decide) (by decide)⟩

/-- Claim C7 as amended: for a `.tar.gz` file, when the library sdist parser
fails, the fallback strips every occurrence of `.tar.gz`, splits on hyphens,
and — when at least two parts result — takes the version verbatim from the
text after the last hyphen and the name verbatim from everything before it;
when fewer than two parts result, NO name/version fields are set at all (the
extracted archive metadata is stored untouched — there is no fallback to the
unmodified filename, and an unreadable archive then yields no name). -/
theorem C7_theorem :
    (∀ (cfg : PMConfig) (fs : FileSys) (cache : Cache) (path : String) (f : PMFile),
      fsLookup fs path = some f →
      cacheLookup cache (cacheKeyOf cfg path f.mtime) = none →
      pyEndsWith (baseName path) ".tar.gz" = true →
      parse_sdist_filename (baseName path) = none →
      2 ≤ (pySplitChar '-' (pyReplace (baseName path) ".tar.gz" "")).length →
      ∃ info, (get_package_info cfg fs cache path).info = some info ∧
        getMeta info "name" =
          some (pyJoin '-' (pySplitChar '-' (pyReplace (baseName path) ".tar.gz" "")).dropLast) ∧
        getMeta info "version" =
          some (((pySplitChar '-' (pyReplace (baseName path) ".tar.gz" "")).getLast?).getD "")) ∧
    (∀ (cfg : PMConfig) (fs : FileSys) (cache : Cache) (path : String) (f : PMFile),
      fsLookup fs path = some f →
      cacheLookup cache (cacheKeyOf cfg path f.mtime) = none →
      pyEndsWith (baseName path) ".tar.gz" = true →
      parse_sdist_filename (baseName path) = none →
      (pySplitChar '-' (pyReplace (baseName path) ".tar.gz" "")).length < 2 →
      ∃ info, (get_package_info cfg fs cache path).info = some info ∧
        info.meta = _extract_sdist_metadata f ∧
        (f.members = none → getMeta info "name" = none ∧ getMeta info "version" = none)) := by
  constructor
  · intro cfg fs cache path f hf hc htg hp hlen
    have hwl := not_whl_of_targz _ htg
    simp only [get_package_info, hf, hc, hwl, htg, hp, Bool.false_eq_true, if_false, if_true]
    rw [if_pos hlen]
    refine ⟨_, rfl, ?_, ?_⟩
    · show dget (dinsert "version" _ (dinsert "name" _ (_extract_sdist_metadata f))) "name" =
        some _
      rw [dget_dinsert_ne _ _ _ _ (by decide), dget_dinsert_self]
    · show dget (dinsert "version" _ (dinsert "name" _ (_extract_sdist_metadata f))) "version" =
        some _
      rw [dget_dinsert_self]
  · intro cfg fs cache path f hf hc htg hp hlen
    have hwl := not_whl_of_targz _ htg
    have hnot : ¬ (2 ≤ (pySplitChar '-' (pyReplace (baseName path) ".tar.gz" "")).length) := by
      omega
    simp only [get_package_info, hf, hc, hwl, htg, hp, Bool.false_eq_true, if_false, if_true]
    rw [if_neg hnot]
    refine ⟨_, rfl, rfl, ?_⟩
    intro hm
    have hext : _extract_sdist_metadata f = [] := by
      simp [_extract_sdist_metadata, hm]
    constructor
    · show dget (_extract_sdist_metadata f) "name" = none
      rw [hext]; rfl
    · show dget (_extract_sdist_metadata f) "version" = none
      rw [hext]; rfl

/-- Witness for C7: the fallback case on `pkg-garbage.tar.gz` and the
no-fields case on `pkg.tar.gz`. -/
theorem C7_witness :
    (∃ info, (get_package_info cfgC fsTwoVers [] "pkg-garbage.tar.gz").info = some info ∧
      getMeta info "name" =
        some (pyJoin '-'
          (pySplitChar '-' (pyReplace (baseName "pkg-garbage.tar.gz") ".tar.gz" "")).dropLast) ∧
      getMeta info "version" =
        some (((pySplitChar '-'
          (pyReplace (baseName "pkg-garbage.tar.gz") ".tar.gz" "")).getLast?).getD "")) ∧
    (∃ info, (get_package_info cfgC fsNoHyphen [] "pkg.tar.gz").info = some info ∧
      info.meta = _extract_sdist_metadata ⟨"1", 0, none, none⟩ ∧
      (PMFile.members ⟨"1", 0, none, none⟩ = none →
        getMeta info "name" = none ∧ getMeta info "version" = none)) :=
  ⟨C7_theorem.1 cfgC fsTwoVers [] "pkg-garbage.tar.gz" ⟨"2", 1, none, none⟩
      (by decide) (by decide) (by decide) (by decide) (by decide),
   C7_theorem.2 cfgC fsNoHyphen [] "pkg.tar.gz" ⟨"1", 0, none, none⟩
      (by decide) (by decide) (by decide) (by decide) (by decide)⟩

theorem charOfNat_toNat (n : Nat) (h : n.isValidChar) : (Char.ofNat n).toNat = n := by
  rw [Char.ofNat, dif_pos h]
  simp only [Char.ofNatAux, Char.toNat, UInt32.toNat]
  simp only [BitVec.toNat_ofNatLt]

theorem pyCharLower_facts (c : Char) (hc : c = '-' ∨ isSepChar c = false) :
    pyCharLower c ≠ '_' ∧ pyCharLower c ≠ '.' ∧
      ¬ (65 ≤ (pyCharLower c).toNat ∧ (pyCharLower c).toNat ≤ 90) := by
  by_cases h : 65 ≤ c.toNat ∧ c.toNat ≤ 90
  · have hv : (c.toNat + 32).isValidChar := Or.inl (by omega)
    have hTN : (pyCharLower c).toNat = c.toNat + 32 := by
      simp only [pyCharLower, if_pos h]
      exact charOfNat_toNat _ hv
    refine ⟨?_, ?_, ?_⟩
    · intro heq
      have h95 := congrArg Char.toNat heq
      rw [hTN] at h95
      have : ('_').toNat = 95 := by decide
      omega
    · intro heq
      have h46 := congrArg Char.toNat heq
      rw [hTN] at h46
      have : ('.').toNat = 46 := by decide
      omega
    · rw [hTN]; omega
  · have hid : pyCharLower c = c := by simp only [pyCharLower, if_neg h]
    rw [hid]
    rcases hc with rfl | hns
    · exact ⟨by decide, by decide, by decide⟩
    · simp only [isSepChar, Bool.or_eq_false_iff, beq_eq_false_iff_ne, ne_eq] at hns
      exact ⟨hns.1.2, hns.2, h⟩

theorem collapse_chars :
    ∀ (b : Bool) (l : List Char), ∀ d ∈ collapseSepAux b l, d = '-' ∨ isSepChar d = false := by
  intro b l
  induction l generalizing b with
  | nil => intro d hd; simp [collapseSepAux] at hd
  | cons c cs ih =>
    intro d hd
    simp only [collapseSepAux] at hd
    by_cases hs : isSepChar c = true
    · rw [if_pos hs] at hd
      cases b with
      | true => exact ih true d hd
      | false =>
        simp only [Bool.false_eq_true, if_false, List.mem_cons] at hd
        rcases hd with rfl | hd2
        · exact Or.inl rfl
        · exact ih true d hd2
    · rw [if_neg hs] at hd
      rcases List.mem_cons.mp hd with rfl | hd2
      · exact Or.inr (Bool.not_eq_true _ ▸ eq_false_of_ne_true hs)
      · exact ih false d hd2

theorem canonicalizeName_chars (s : String) :
    ∀ c ∈ (canonicalizeName s).data, c ≠ '_' ∧ c ≠ '.' ∧
      ¬ (65 ≤ c.toNat ∧ c.toNat ≤ 90) := by
  intro c hc
  have hc2 : c ∈ (collapseSepAux false s.data).map pyCharLower := hc
  rcases List.mem_map.mp hc2 with ⟨d, hd, rfl⟩
  exact pyCharLower_facts d (collapse_chars false s.data d hd)

theorem parse_sdist_name_canonical (fn n v : String)
    (h : parse_sdist_filename fn = some (n, v)) :
    ∀ c ∈ n.data, c ≠ '_' ∧ c ≠ '.' ∧ ¬ (65 ≤ c.toNat ∧ c.toNat ≤ 90) := by
  have htg := parse_sdist_some_targz fn n v h
  simp only [parse_sdist_filename, htg, if_true] at h
  cases hp : pySplitChar '-' (pyDropRight fn 7) with
  | nil => rw [hp] at h; simp at h
  | cons a tl =>
    cases tl with
    | nil => rw [hp] at h; simp at h
    | cons b tl2 =>
      rw [hp] at h
      cases hv : parseVersion ((((a :: b :: tl2).getLast?).getD "")) with
      | none => rw [hv] at h; simp at h
      | some pv =>
        rw [hv] at h
        simp only [Option.some.injEq, Prod.mk.injEq] at h
        rw [← h.1]
        exact canonicalizeName_chars _

theorem collapse_id (l : List Char) (h : ∀ c ∈ l, isSepChar c = false) :
    collapseSepAux false l = l := by
  induction l with
  | nil => rfl
  | cons c cs ih =>
    have hc : isSepChar c = false := h c (List.mem_cons_self c cs)
    simp only [collapseSepAux, hc, Bool.false_eq_true, if_false]
    rw [ih (fun d hd => h d (List.mem_cons_of_mem c hd))]

/-- Claim C8 as amended: the primary resolution path canonicalizes the name —
lower-casing AND collapsing runs of `-`, `_`, `.` into single hyphens — so a
resolved primary name never contains an underscore, a dot, or an ASCII
uppercase letter; only on a string with no separator characters does
canonicalization reduce to plain lower-casing. -/
theorem C8_theorem :
    (∀ (s : String), ∀ c ∈ (canonicalizeName s).data,
      c ≠ '_' ∧ c ≠ '.' ∧ ¬ (65 ≤ c.toNat ∧ c.toNat ≤ 90)) ∧
    (∀ (fn n v : String), parse_sdist_filename fn = some (n, v) →
      ∀ c ∈ n.data, c ≠ '_' ∧ c ≠ '.' ∧ ¬ (65 ≤ c.toNat ∧ c.toNat ≤ 90)) ∧
    (∀ (s : String), s.data.all (fun c => !(isSepChar c)) = true →
      canonicalizeName s = pyLower s) := by
  refine ⟨canonicalizeName_chars, parse_sdist_name_canonical, ?_⟩
  intro s h
  show pyLower (String.mk (collapseSepAux false s.data)) = pyLower s
  rw [collapse_id s.data (fun c hc => by
    have := List.all_eq_true.mp h c hc
    simpa using this)]

/-- Witness for C8 at concrete inputs. -/
theorem C8_witness :
    (('m' ∈ (canonicalizeName "My_Pkg").data) →
      'm' ≠ '_' ∧ 'm' ≠ '.' ∧ ¬ (65 ≤ ('m').toNat ∧ ('m').toNat ≤ 90)) ∧
    ('m' ≠ '_' ∧ 'm' ≠ '.' ∧ ¬ (65 ≤ ('m').toNat ∧ ('m').toNat ≤ 90)) ∧
    canonicalizeName "MyPkg" = pyLower "MyPkg" :=
  ⟨fun hm => C8_theorem.1 "My_Pkg" 'm' hm,
   C8_theorem.2.1 "my_pkg-1.0.tar.gz" "my-pkg" "1.0" (by decide) 'm' (by decide),
   C8_theorem.2.2 "MyPkg" (by decide)⟩

theorem addToGroup_names (cat : Catalog) (nm : String) (info : PackageInfo)
    (hP : ∀ g ∈ cat, ∀ e ∈ g.2, ∃ n0, getMeta e "name" = some n0 ∧ g.1 = pyLower n0)
    (hinfo : ∃ n0, getMeta info "name" = some n0 ∧ nm = pyLower n0) :
    ∀ g ∈ addToGroup cat nm info, ∀ e ∈ g.2,
      ∃ n0, getMeta e "name" = some n0 ∧ g.1 = pyLower n0 := by
  intro g hg e he
  unfold addToGroup at hg
  by_cases hany : cat.any (fun g => g.1 == nm)
  · rw [if_pos hany] at hg
    rcases List.mem_map.mp hg with ⟨g0, hg0, rfl⟩
    cases hb : (g0.1 == nm) with
    | false =>
      simp only [hb, Bool.false_eq_true, if_false] at he
      exact hP g0 hg0 e he
    | true =>
      simp only [hb, if_true] at he
      rcases List.mem_append.mp he with he2 | he3
      · exact hP g0 hg0 e he2
      · have heq : e = info := by simpa using he3
        subst heq
        rcases hinfo with ⟨n0, hn0, hnm⟩
        exact ⟨n0, hn0, by simp only [hb, if_true]; exact (eq_of_beq hb).trans hnm⟩
  · rw [if_neg hany] at hg
    rcases List.mem_append.mp hg with hg2 | hg3
    · exact hP g hg2 e he
    · have : g = (nm, [info]) := by simpa using hg3
      subst this
      have heq : e = info := by simpa using he
      subst heq
      rcases hinfo with ⟨n0, hn0, hnm⟩
      exact ⟨n0, hn0, hnm⟩

theorem buildGroups_names (cfg : PMConfig) (fs : FileSys) (cache : Cache) :
    ∀ g ∈ (buildGroups cfg fs cache).1, ∀ e ∈ g.2,
      ∃ n0, getMeta e "name" = some n0 ∧ g.1 = pyLower n0 := by
  have key : ∀ (l : FileSys) (acc : Catalog × Cache),
      (∀ g ∈ acc.1, ∀ e ∈ g.2, ∃ n0, getMeta e "name" = some n0 ∧ g.1 = pyLower n0) →
      ∀ g ∈ (l.foldl (fun acc entry =>
          let p := entry.1
          let fname := baseName p
          if pathSuffix fname == ".whl" || pyEndsWith fname ".tar.gz" then
            let r := get_package_info cfg fs acc.2 p
            match r.info with
            | none => (acc.1, r.cache)
            | some info =>
              match getMeta info "name" with
              | none => (acc.1, r.cache)
              | some n => (addToGroup acc.1 (pyLower n) info, r.cache)
          else acc) acc).1, ∀ e ∈ g.2,
        ∃ n0, getMeta e "name" = some n0 ∧ g.1 = pyLower n0 := by
    intro l
    induction l with
    | nil => intro acc hacc; exact hacc
    | cons hd tl ih =>
      intro acc hacc
      rw [List.foldl_cons]
      apply ih
      cases hcond : (pathSuffix (baseName hd.1) == ".whl" || pyEndsWith (baseName hd.1) ".tar.gz") with
      | false => simpa only [hcond, Bool.false_eq_true, if_false] using hacc
      | true =>
        simp only [hcond, if_true]
        cases hri : (get_package_info cfg fs acc.2 hd.1).info with
        | none => simpa only [hri] using hacc
        | some info =>
          simp only [hri]
          cases hmn : getMeta info "name" with
          | none => simpa only [hmn] using hacc
          | some n =>
            simp only [hmn]
            exact addToGroup_names acc.1 (pyLower n) info hacc ⟨n, hmn, rfl⟩
  intro g hg
  exact key fs ([], cache) (by simp) g hg

/-- Claim C1 as amended: every entry of every catalog group carries a
populated `name` key, and the group key is its lower-casing — but there is no
empty-string / `"0.0.0"` default: a file for which neither metadata nor
filename parsing produced a name is dropped from the catalog (the `KeyError`
is caught and logged).  In particular, for a zero-byte `broken.whl`, the
build completes (the model is total) and yields an empty catalog — no
`broken` group. -/
theorem C1_theorem :
    (∀ (cfg : PMConfig) (fs : FileSys) (cache : Cache),
      ∀ g ∈ (get_all_packages cfg fs cache).1, ∀ e ∈ g.2,
        ∃ n0, getMeta e "name" = some n0 ∧ g.1 = pyLower n0) ∧
    (∀ cfg : PMConfig, (get_all_packages cfg fsBrokenWhl []).1 = []) := by
  constructor
  · intro cfg fs cache g hg e he
    rcases List.mem_map.mp hg with ⟨g0, hg0, rfl⟩
    have he0 : e ∈ g0.2 := (List.perm_insertionSort versionRel g0.2).mem_iff.mp he
    exact buildGroups_names cfg fs cache g0 hg0 e he0
  · intro cfg
    rfl

/-- Witness for C1 at concrete inputs. -/
theorem C1_witness :
    (∃ n0, getMeta ⟨"a-1.0.tar.gz", "a-1.0.tar.gz", 0, "1", "", "",
        [("version", "1.0"), ("name", "a")]⟩ "name" = some n0 ∧ "a" = pyLower n0) ∧
    (get_all_packages cfgC fsBrokenWhl []).1 = [] :=
  ⟨C1_theorem.1 cfgC fsSimple []
      ("a", [⟨"a-1.0.tar.gz", "a-1.0.tar.gz", 0, "1", "", "",
        [("version", "1.0"), ("name", "a")]⟩]) (by decide)
      ⟨"a-1.0.tar.gz", "a-1.0.tar.gz", 0, "1", "", "",
        [("version", "1.0"), ("name", "a")]⟩ (by decide),
   C1_theorem.2 cfgC⟩

/-- Claim C4 as amended: every catalog group is sorted descending by the
version key (`List.Sorted versionRel`), is a permutation of the scanned
group, and an entry with a strictly larger key always appears strictly
earlier — but an unparseable version string is assigned the key of `0.0.0`
(the `parse_version("0.0.0")` fallback), NOT the lowest possible key, so it
sorts among — not after — the parseable versions (in particular before
pre/dev releases of `0.0.0`); the sort itself is total and never raises. -/
theorem C4_theorem :
    (∀ (cfg : PMConfig) (fs : FileSys) (cache : Cache),
      ∀ g ∈ (get_all_packages cfg fs cache).1,
        List.Sorted versionRel g.2 ∧
        (∃ g0 ∈ (buildGroups cfg fs cache).1, g.1 = g0.1 ∧ g.2.Perm g0.2) ∧
        (∀ (i j : Fin g.2.length),
          _version_key (verOf (g.2.get i)) < _version_key (verOf (g.2.get j)) →
            (j : Nat) < (i : Nat))) ∧
    (∀ s : String, parseVersion s = none →
      _version_key s = cmpKey ⟨0, [0, 0, 0], none, none, none⟩) := by
  constructor
  · intro cfg fs cache g hg
    rcases List.mem_map.mp hg with ⟨g0, hg0, rfl⟩
    have hsorted : List.Sorted versionRel (pySortDesc g0.2) :=
      List.sorted_insertionSort versionRel g0.2
    refine ⟨hsorted, ⟨g0, hg0, rfl, List.perm_insertionSort versionRel g0.2⟩, ?_⟩
    intro i j hij
    by_contra hn
    push_neg at hn
    rcases Nat.lt_or_ge (i : Nat) (j : Nat) with hlt | hge
    · have hfin : i < j := hlt
      have hrel := List.Sorted.rel_get_of_lt hsorted hfin
      exact absurd hij (not_lt_of_le hrel)
    · have : (i : Nat) = (j : Nat) := Nat.le_antisymm hn hge
      have : i = j := Fin.ext this
      subst this
      exact absurd hij (lt_irrefl _)
  · intro s h
    simp [_version_key, h]

/-- Witness for C4 at the concrete two-version group. -/
theorem C4_witness :
    (List.Sorted versionRel
      [⟨"pkg-garbage.tar.gz", "pkg-garbage.tar.gz", 1, "2", "", "",
          [("version", "garbage"), ("name", "pkg")]⟩,
       ⟨"pkg-0.0.0.dev0.tar.gz", "pkg-0.0.0.dev0.tar.gz", 1, "1", "", "",
          [("version", "0.0.0.dev0"), ("name", "pkg")]⟩] ∧
      (∃ g0 ∈ (buildGroups cfgC fsTwoVers []).1, ("pkg" : String) = g0.1 ∧
        List.Perm
          [⟨"pkg-garbage.tar.gz", "pkg-garbage.tar.gz", 1, "2", "", "",
              [("version", "garbage"), ("name", "pkg")]⟩,
           (⟨"pkg-0.0.0.dev0.tar.gz", "pkg-0.0.0.dev0.tar.gz", 1, "1", "", "",
              [("version", "0.0.0.dev0"), ("name", "pkg")]⟩ : PackageInfo)] g0.2) ∧
      (∀ (i j : Fin ([⟨"pkg-garbage.tar.gz", "pkg-garbage.tar.gz", 1, "2", "", "",
              [("version", "garbage"), ("name", "pkg")]⟩,
           (⟨"pkg-0.0.0.dev0.tar.gz", "pkg-0.0.0.dev0.tar.gz", 1, "1", "", "",
              [("version", "0.0.0.dev0"), ("name", "pkg")]⟩ : PackageInfo)] :
            List PackageInfo).length),
        _version_key (verOf (([⟨"pkg-garbage.tar.gz", "pkg-garbage.tar.gz", 1, "2", "", "",
              [("version", "garbage"), ("name", "pkg")]⟩,
           (⟨"pkg-0.0.0.dev0.tar.gz", "pkg-0.0.0.dev0.tar.gz", 1, "1", "", "",
              [("version", "0.0.0.dev0"), ("name", "pkg")]⟩ : PackageInfo)] :
            List PackageInfo).get i)) <
          _version_key (verOf (([⟨"pkg-garbage.tar.gz", "pkg-garbage.tar.gz", 1, "2", "", "",
              [("version", "garbage"), ("name", "pkg")]⟩,
           (⟨"pkg-0.0.0.dev0.tar.gz", "pkg-0.0.0.dev0.tar.gz", 1, "1", "", "",
              [("version", "0.0.0.dev0"), ("name", "pkg")]⟩ : PackageInfo)] :
            List PackageInfo).get j)) →
          (j : Nat) < (i : Nat))) ∧
    _version_key "garbage" = cmpKey ⟨0, [0, 0, 0], none, none, none⟩ :=
  ⟨C4_theorem.1 cfgC fsTwoVers []
      ("pkg",
        [⟨"pkg-garbage.tar.gz", "pkg-garbage.tar.gz", 1, "2", "", "",
            [("version", "garbage"), ("name", "pkg")]⟩,
         ⟨"pkg-0.0.0.dev0.tar.gz", "pkg-0.0.0.dev0.tar.gz", 1, "1", "", "",
            [("version", "0.0.0.dev0"), ("name", "pkg")]⟩]) (by decide),
   C4_theorem.2 "garbage" (by decide)⟩

theorem parseMetaAux_eq_spec :
    ∀ (n : Nat) (lines : List String), lines.length ≤ n → ∀ (m : Dict),
      (parseMetaAux lines m none = parseMetaSpecLoop lines m) ∧
      (∀ (k : String) (coll : List String),
        parseMetaAux lines m (some (k, coll)) =
          parseMetaSpecLoop (lines.dropWhile isContLine)
            (flushDesc k (coll ++ (lines.takeWhile isContLine).map pyRStrip) m)) := by
  intro n
  induction n with
  | zero =>
    intro lines h m
    have hl : lines = [] := List.eq_nil_of_length_eq_zero (Nat.le_zero.mp h)
    subst hl
    constructor
    · simp [parseMetaAux, parseMetaSpecLoop]
    · intro k coll
      simp [parseMetaAux, parseMetaSpecLoop]
  | succ n ih =>
    intro lines h m
    cases lines with
    | nil =>
      constructor
      · simp [parseMetaAux, parseMetaSpecLoop]
      · intro k coll
        simp [parseMetaAux, parseMetaSpecLoop]
    | cons l rest =>
      have hrest : rest.length ≤ n := by
        simp only [List.length_cons] at h
        omega
      have hstep : ∀ m2 : Dict,
          parseMetaAux (l :: rest) m2 none = parseMetaSpecLoop (l :: rest) m2 := by
        intro m2
        have hred : parseMetaAux (l :: rest) m2 none =
            parseMetaAux rest (parseMetaStep m2 l).1 (parseMetaStep m2 l).2 := rfl
        by_cases h1 : (pyStrip l == "" || !(pyContainsChar (pyStrip l) ':')) = true
        · have hs : parseMetaStep m2 l = (m2, none) := by
            unfold parseMetaStep
            rw [if_pos h1]
          rw [hred, hs]
          rw [(ih rest hrest m2).1]
          conv_rhs => rw [parseMetaSpecLoop]
          rw [if_pos h1]
        · by_cases h2 : isDescKey (pyStrip (splitKV (pyStrip l)).1) = true
          · have hs : parseMetaStep m2 l =
                (m2, some (normKey (pyStrip (splitKV (pyStrip l)).1),
                  if pyStrip (splitKV (pyStrip l)).2 != "" then
                    [pyStrip (splitKV (pyStrip l)).2] else [])) := by
              unfold parseMetaStep
              rw [if_neg h1]
              rw [if_pos h2]
            rw [hred, hs]
            rw [(ih rest hrest m2).2]
            conv_rhs => rw [parseMetaSpecLoop]
            rw [if_neg h1]
            rw [if_pos h2]
            rfl
          · have hs : parseMetaStep m2 l =
                (dinsert (normKey (pyStrip (splitKV (pyStrip l)).1))
                  (pyStrip (splitKV (pyStrip l)).2) m2, none) := by
              unfold parseMetaStep
              rw [if_neg h1]
              rw [if_neg h2]
            rw [hred, hs]
            rw [(ih rest hrest _).1]
            conv_rhs => rw [parseMetaSpecLoop]
            rw [if_neg h1]
            rw [if_neg h2]
      constructor
      · exact hstep m
      · intro k coll
        by_cases hcl : isContLine l = true
        · have hred : parseMetaAux (l :: rest) m (some (k, coll)) =
              parseMetaAux rest m (some (k, coll ++ [pyRStrip l])) := by
            show (if isContLine l then parseMetaAux rest m (some (k, coll ++ [pyRStrip l]))
              else _) = _
            rw [if_pos hcl]
          rw [hred, (ih rest hrest m).2]
          rw [List.dropWhile_cons_of_pos hcl, List.takeWhile_cons_of_pos hcl]
          simp [List.append_assoc]
        · have hred : parseMetaAux (l :: rest) m (some (k, coll)) =
              parseMetaAux (l :: rest) (flushDesc k coll m) none := by
            show (if isContLine l then _ else
              parseMetaAux rest (parseMetaStep (flushDesc k coll m) l).1
                (parseMetaStep (flushDesc k coll m) l).2) = _
            rw [if_neg hcl]
            rfl
          rw [hred, hstep (flushDesc k coll m)]
          rw [List.dropWhile_cons_of_neg hcl, List.takeWhile_cons_of_neg hcl]
          simp

/-- Claim C6: the metadata parser agrees, on every input, with the
specification-side description: each colon-bearing line becomes a trimmed
key/value pair under a lower_underscore key; for `Description` /
`Description-Content-Type` the maximal following block of blank or
eight-space-indented lines is appended rstripped as continuation lines and
not reprocessed; colon-less lines outside a continuation block are ignored;
the assembled value keeps internal newlines and is trimmed once. -/
theorem C6_theorem (content : String) : _parse_metadata content = parseMetadataSpec content := by
  have := (parseMetaAux_eq_spec (pySplitChar '\n' content).length
    (pySplitChar '\n' content) le_rfl []).1
  simpa [_parse_metadata, parseMetadataSpec] using this
